import Mathlib

/-!
Verification of the QuickReplace string-substitution tool.

Text is modelled as `List Char` (the inputs of interest are ASCII, where
char offsets coincide with Rust's byte offsets).  The substitution engine
`replace` mirrors `fn replace` of `src/main.rs`; the program pipeline
`mainModel` mirrors `fn main` after argument parsing, with file contents
passed in and file writes returned as fields of the outcome.
-/

namespace QuickReplace

/-- Decidable equality for `Except`, so that concrete engine runs can be
checked by `decide`. -/
instance {ε α : Type} [DecidableEq ε] [DecidableEq α] : DecidableEq (Except ε α) := fun a b =>
  match a, b with
  | .ok x, .ok y =>
    if h : x = y then .isTrue (by rw [h]) else .isFalse (by simp [h])
  | .error x, .error y =>
    if h : x = y then .isTrue (by rw [h]) else .isFalse (by simp [h])
  | .ok _, .error _ => .isFalse (by simp)
  | .error _, .ok _ => .isFalse (by simp)

/-- Modelled from the spec: the host pattern library (the `regex` crate is not
part of this repository).  The spec describes the engine as compiling "a
pattern (literal or pattern-language string)", failing "if the pattern is not
a syntactically valid expression in the chosen pattern language".  The
modelled fragment is: an optional leading `(?i)` case-insensitivity marker
followed by a literal; a body containing a metacharacter is outside the
fragment and reported as a compile error. -/
inductive RegexError where
  | badPattern : RegexError
  deriving DecidableEq

/-- A compiled matcher of the modelled fragment: a case-insensitivity flag
and a literal pattern. -/
structure Matcher where
  ci : Bool
  lit : List Char
  deriving DecidableEq

/-- The four characters of the `(?i)` inline-flag marker that
`fn replace` prepends via `format!("(?i){}", target)`. -/
def ciMarker : List Char := ['(', '?', 'i', ')']

/-- Metacharacters of the pattern language; a body containing one is not a
literal, hence outside the modelled fragment. -/
def isMeta (c : Char) : Bool :=
  c ∈ ['.', '^', '$', '*', '+', '?', '(', ')', '[', ']', '{', '}', '|', '\\']

/-- Modelled from the spec: pattern compilation (`Regex::new`).  Strips a
single leading `(?i)` marker into the case-insensitivity flag and requires
the remaining body to be a literal. -/
def compileRegex (pat : List Char) : Except RegexError Matcher :=
  let s : Bool × List Char :=
    if pat.take 4 = ciMarker then (true, pat.drop 4) else (false, pat)
  if s.2.all (fun c => !(isMeta c)) then .ok ⟨s.1, s.2⟩ else .error .badPattern

/-- Case folding used by `(?i)` matching, restricted to the modelled ASCII
setting: both characters are lowered and compared. -/
def charMatches (ci : Bool) (p c : Char) : Bool :=
  if ci then p.toLower = c.toLower else p = c

/-- Does the literal pattern match at the head of `rest`? -/
def litMatchHere (ci : Bool) : List Char → List Char → Bool
  | [], _ => true
  | _ :: _, [] => false
  | p :: ps, c :: cs => charMatches ci p c && litMatchHere ci ps cs

/-- Modelled from the spec: the left-to-right non-overlapping scan of
`Regex::replace_all`, with the closure of `fn replace` inlined: at each
match it appends the literal replacement to the output and records
`(start offset, matched text)`; a zero-length match emits its record and
then advances by one character (the host library's empty-regex rule, which
also matches once at the end of the text).  `fuel` only bounds the
iteration; the wrapper supplies `text.length`, which suffices because every
step consumes at least one character of `rest`. -/
def scanAux (ci : Bool) (pat repl : List Char) :
    Nat → List Char → Nat → List Char × List (Nat × List Char)
  | _, [], pos => if pat = [] then (repl, [(pos, [])]) else ([], [])
  | 0, _ :: _, _ => ([], [])
  | fuel + 1, c :: rs, pos =>
    if litMatchHere ci pat (c :: rs) then
      match pat with
      | [] =>
        let r := scanAux ci pat repl fuel rs (pos + 1)
        (repl ++ c :: r.1, (pos, []) :: r.2)
      | _ :: _ =>
        let r := scanAux ci pat repl fuel ((c :: rs).drop pat.length) (pos + pat.length)
        (repl ++ r.1, (pos, (c :: rs).take pat.length) :: r.2)
    else
      let r := scanAux ci pat repl fuel rs (pos + 1)
      (c :: r.1, r.2)

/-- `Regex::replace_all` with the match-recording closure of `fn replace`:
returns the rewritten text and the ordered match log. -/
def replaceAll (m : Matcher) (replacement text : List Char) :
    List Char × List (Nat × List Char) :=
  scanAux m.ci m.lit replacement text.length text 0

/-- `fn replace` of `src/main.rs`: compiles `target` (prefixed with `(?i)`
when `case_insensitive`) and, on success, replaces every match with the
literal `replacement`, logging `(start, matched_text)` per match. -/
def replace (target replacement text : List Char) (case_insensitive : Bool) :
    Except RegexError (List Char × List (Nat × List Char)) :=
  let pat := if case_insensitive then ciMarker ++ target else target
  match compileRegex pat with
  | .error e => .error e
  | .ok m => .ok (replaceAll m replacement text)

/-- Rust's `str::lines()`: pieces split at `'\n'` (a single `'\r'`
immediately before the `'\n'` is stripped), terminators discarded, and a
final line terminator produces no trailing empty line. -/
def rustLines : List Char → List (List Char)
  | [] => []
  | '\r' :: '\n' :: rest => [] :: rustLines rest
  | '\n' :: rest => [] :: rustLines rest
  | c :: rest =>
    match rustLines rest with
    | [] => [[c]]
    | l :: ls => (c :: l) :: ls

/-- Rust's `str::trim()`: drop leading and trailing whitespace. -/
def trimWs (l : List Char) : List Char :=
  ((l.dropWhile Char.isWhitespace).reverse.dropWhile Char.isWhitespace).reverse

/-- The interactive acceptance test of `fn main`:
`input.trim().to_lowercase() == "y"`. -/
def isYes (input : List Char) : Bool :=
  (trimWs input).map Char.toLower = ['y']

/-- The interactive loop of `fn main` over the lines of the rewritten text:
`answers k` is the raw reply read for line `k`; an accepted line is pushed
onto the accumulator, and a newline is always pushed. -/
def interactiveLoop (answers : Nat → List Char) :
    List (List Char) → Nat → List Char → List Char
  | [], _, acc => acc
  | l :: ls, k, acc =>
    let acc' := if isYes (answers k) then acc ++ l else acc
    interactiveLoop answers ls (k + 1) (acc' ++ ['\n'])

/-- Interactive mode's `final_data`, built from the empty string. -/
def interactiveData (answers : Nat → List Char) (ls : List (List Char)) : List Char :=
  interactiveLoop answers ls 0 []

/-- `Vec::join("\n")`, used for the preview block and the log file. -/
def joinNl : List (List Char) → List Char
  | [] => []
  | [l] => l
  | l :: l' :: ls => l ++ '\n' :: joinNl (l' :: ls)

/-- One log line: `format!("Position: {}, Matched: {}", pos, matched)`. -/
def renderEntry (p : Nat × List Char) : List Char :=
  "Position: ".toList ++ Nat.toDigits 10 p.1 ++ ", Matched: ".toList ++ p.2

/-- The serialized log: rendered entries joined by newlines. -/
def renderLog (ms : List (Nat × List Char)) : List Char :=
  joinNl (ms.map renderEntry)

/-- Rust's `str::split_whitespace()`: maximal runs of non-whitespace. -/
def splitWs : List Char → List (List Char)
  | [] => []
  | c :: rest =>
    if c.isWhitespace then splitWs rest
    else
      match splitWs rest with
      | [] => [[c]]
      | l :: ls =>
        match rest with
        | [] => [[c]]
        | c' :: _ => if c'.isWhitespace then [c] :: l :: ls else (c :: l) :: ls

/-- `data.lines().count()` of the statistics block. -/
def lineCount (t : List Char) : Nat := (rustLines t).length

/-- `data.split_whitespace().count()` of the statistics block. -/
def wordCount (t : List Char) : Nat := (splitWs t).length

/-- Number of `'\n'` characters in a text. -/
def countNl : List Char → Nat
  | [] => 0
  | c :: rest => (if c = '\n' then 1 else 0) + countNl rest

/-- The `Arguments` struct of `src/main.rs`, minus the file paths (file
contents are passed to `mainModel` directly, and for the log file only
whether it was requested matters). -/
structure Arguments where
  target : List Char
  replacement : List Char
  case_insensitive : Bool
  interactive : Bool
  preview : Bool
  log_file : Bool
  deriving DecidableEq

/-- The externally observable outcome of one run of `fn main` (after
argument parsing and a successful read of the input file): the exit code,
the contents written to the output file and to the log file (`none` when
the file is not written), the preview block (joined first-10-lines text and
match count) when shown, the lines offered for interactive confirmation,
and the statistics block `((orig lines, orig words), (final lines, final
words))` when printed. -/
structure MainOutcome where
  exitCode : Nat
  outputWrite : Option (List Char)
  logWrite : Option (List Char)
  previewShown : Option (List Char × Nat)
  prompts : List (List Char)
  statsShown : Option ((Nat × Nat) × (Nat × Nat))
  deriving DecidableEq

/-- `fn main` of `src/main.rs` after a successful file read: run the
engine (pattern error exits 1); in preview mode display the first 10 lines
of the rewritten text with the match count and return without writing; in
interactive mode confirm each line with `answers`, otherwise keep the
rewritten text; write the output file, print statistics, and write the log
file when requested.  File writes are modelled as always succeeding. -/
def mainModel (args : Arguments) (data : List Char) (answers : Nat → List Char) :
    MainOutcome :=
  match replace args.target args.replacement data args.case_insensitive with
  | .error _ =>
    { exitCode := 1, outputWrite := none, logWrite := none,
      previewShown := none, prompts := [], statsShown := none }
  | .ok (replaced_data, log) =>
    if args.preview then
      { exitCode := 0, outputWrite := none, logWrite := none,
        previewShown := some (joinNl ((rustLines replaced_data).take 10), log.length),
        prompts := [], statsShown := none }
    else
      let final_data :=
        if args.interactive then interactiveData answers (rustLines replaced_data)
        else replaced_data
      { exitCode := 0,
        outputWrite := some final_data,
        logWrite := if args.log_file then some (renderLog log) else none,
        previewShown := none,
        prompts := if args.interactive then rustLines replaced_data else [],
        statsShown := some ((lineCount data, wordCount data),
                            (lineCount final_data, wordCount final_data)) }

/-- A pattern of the modelled fragment is syntactically valid when, after
stripping an optional leading case-insensitivity marker, its body is a
literal (no metacharacters). -/
def patternValid (pat : List Char) : Bool :=
  (if pat.take 4 = ciMarker then pat.drop 4 else pat).all fun c => !(isMeta c)

/-- The spec's description of the rewritten text: for each match in order,
the unmatched slice before it, then the literal replacement; after the last
match, the remaining tail of the original text. -/
def rebuild (repl text : List Char) : Nat → List (Nat × List Char) → List Char
  | pos, [] => text.drop pos
  | pos, (o, m) :: ms =>
    (text.drop pos).take (o - pos) ++ repl ++ rebuild repl text (o + m.length) ms

/-! ### Lemmas about the scan -/

theorem take_len_take {α : Type} (l : List α) (n : Nat) :
    l.take (l.take n).length = l.take n := by
  simp [List.take_take, List.length_take]

theorem litMatchHere_length (ci : Bool) :
    ∀ pat rest : List Char, litMatchHere ci pat rest = true → pat.length ≤ rest.length := by
  intro pat
  induction pat with
  | nil => intro rest _; simp
  | cons p ps ih =>
    intro rest h
    cases rest with
    | nil => simp [litMatchHere] at h
    | cons c cs =>
      simp only [litMatchHere, Bool.and_eq_true] at h
      simpa using Nat.succ_le_succ (ih cs h.2)

/-- Every recorded match lies at or after the scan position, and its
recorded text is the slice of the scanned suffix at its offset. -/
theorem scanAux_mem (ci : Bool) (pat repl : List Char) (fuel : Nat) (rest : List Char)
    (pos : Nat) :
    ∀ p ∈ (scanAux ci pat repl fuel rest pos).2,
      pos ≤ p.1 ∧ (rest.drop (p.1 - pos)).take p.2.length = p.2 := by
  induction fuel, rest, pos using scanAux.induct ci pat repl with
  | case1 fuel pos hpat =>
    intro p hp
    simp [scanAux, hpat] at hp
    simp [hp]
  | case2 fuel pos hpat =>
    intro p hp
    simp [scanAux, hpat] at hp
  | case3 c rs pos =>
    intro p hp
    simp [scanAux] at hp
  | case4 fuel c rs pos hm hpat ih =>
    subst hpat
    intro p hp
    simp only [scanAux, hm, if_true] at hp
    rcases List.mem_cons.mp hp with h | h
    · subst h; simp
    · obtain ⟨h1, h2⟩ := ih p h
      refine ⟨by omega, ?_⟩
      have e : p.1 - pos = (p.1 - (pos + 1)) + 1 := by omega
      rw [e, List.drop_succ_cons]
      exact h2
  | case5 fuel c rs pos hm hd tl hpat ih =>
    subst hpat
    intro p hp
    simp only [scanAux, hm, if_true] at hp
    rcases List.mem_cons.mp hp with h | h
    · subst h
      exact ⟨le_refl _, by simp [take_len_take]⟩
    · obtain ⟨h1, h2⟩ := ih p h
      refine ⟨by omega, ?_⟩
      rw [List.drop_drop] at h2
      have e : (hd :: tl).length + (p.1 - (pos + (hd :: tl).length)) = p.1 - pos := by
        omega
      rwa [e] at h2
  | case6 fuel c rs pos hm ih =>
    intro p hp
    simp only [scanAux, hm, if_false, Bool.false_eq_true] at hp
    obtain ⟨h1, h2⟩ := ih p hp
    refine ⟨by omega, ?_⟩
    have e : p.1 - pos = (p.1 - (pos + 1)) + 1 := by omega
    rw [e, List.drop_succ_cons]
    exact h2

/-- The recorded offsets are strictly increasing. -/
theorem scanAux_sorted (ci : Bool) (pat repl : List Char) (fuel : Nat) (rest : List Char)
    (pos : Nat) :
    List.Chain' (fun a b : Nat × List Char => a.1 < b.1)
      (scanAux ci pat repl fuel rest pos).2 := by
  induction fuel, rest, pos using scanAux.induct ci pat repl with
  | case1 fuel pos hpat => simp [scanAux, hpat]
  | case2 fuel pos hpat => simp [scanAux, hpat]
  | case3 c rs pos => simp [scanAux]
  | case4 fuel c rs pos hm hpat ih =>
    subst hpat
    simp only [scanAux, hm, if_true]
    rw [List.chain'_cons']
    refine ⟨?_, ih⟩
    intro q hq
    have := (scanAux_mem ci [] repl fuel rs (pos + 1) q (List.mem_of_mem_head? hq)).1
    omega
  | case5 fuel c rs pos hm hd tl hpat ih =>
    subst hpat
    simp only [scanAux, hm, if_true]
    rw [List.chain'_cons']
    refine ⟨?_, ih⟩
    intro q hq
    have := (scanAux_mem ci (hd :: tl) repl fuel ((c :: rs).drop (hd :: tl).length)
      (pos + (hd :: tl).length) q (List.mem_of_mem_head? hq)).1
    have hl : 0 < (hd :: tl).length := by simp
    omega
  | case6 fuel c rs pos hm ih =>
    simp only [scanAux, hm, if_false, Bool.false_eq_true]
    exact ih

theorem rebuild_shift (repl text : List Char) (pos : Nat) (c : Char)
    (ms : List (Nat × List Char)) (h : text.drop pos = c :: text.drop (pos + 1))
    (hlb : ∀ p ∈ ms, pos + 1 ≤ p.1) :
    rebuild repl text pos ms = c :: rebuild repl text (pos + 1) ms := by
  cases ms with
  | nil => simp [rebuild, h]
  | cons q ms =>
    obtain ⟨o, m⟩ := q
    have h1 : pos + 1 ≤ o := hlb (o, m) (List.mem_cons_self _ _)
    have e : o - pos = (o - (pos + 1)) + 1 := by omega
    simp only [rebuild, h, e, List.take_succ_cons, List.cons_append]

/-- The scan's output text is exactly the spec-side assembly of unmatched
slices and literal replacements dictated by its own match log. -/
theorem scanAux_rebuild (ci : Bool) (pat repl : List Char) (fuel : Nat) (rest : List Char)
    (pos : Nat) :
    ∀ text : List Char, rest.length ≤ fuel → text.drop pos = rest →
      (scanAux ci pat repl fuel rest pos).1
        = rebuild repl text pos (scanAux ci pat repl fuel rest pos).2 := by
  induction fuel, rest, pos using scanAux.induct ci pat repl with
  | case1 fuel pos hpat =>
    intro text hfuel htext
    simp [scanAux, hpat, rebuild, htext]
  | case2 fuel pos hpat =>
    intro text hfuel htext
    simp [scanAux, hpat, rebuild, htext]
  | case3 c rs pos =>
    intro text hfuel htext
    simp at hfuel
  | case4 fuel c rs pos hm hpat ih =>
    subst hpat
    intro text hfuel htext
    have hdrop : text.drop (pos + 1) = rs := by
      have : (text.drop pos).drop 1 = text.drop (pos + 1) := by
        rw [List.drop_drop]
      rw [← this, htext]
      rfl
    have hrec := ih text (by simpa using Nat.le_of_succ_le_succ (by simpa using hfuel))
      hdrop
    simp only [scanAux, hm, if_true]
    rw [rebuild]
    simp only [Nat.sub_self, List.take_zero, List.nil_append, List.length_nil, Nat.add_zero]
    rw [rebuild_shift repl text pos c _ (by rw [htext, hdrop])
      (fun p hp => (scanAux_mem ci [] repl fuel rs (pos + 1) p hp).1)]
    rw [hrec]
  | case5 fuel c rs pos hm hd tl hpat ih =>
    subst hpat
    intro text hfuel htext
    have hn : (hd :: tl).length ≤ (c :: rs).length := litMatchHere_length ci _ _ hm
    have hdrop : text.drop (pos + (hd :: tl).length) = (c :: rs).drop (hd :: tl).length := by
      rw [← htext, List.drop_drop]
    have hlen : ((c :: rs).drop (hd :: tl).length).length ≤ fuel := by
      simp only [List.length_drop, List.length_cons] at hn hfuel ⊢
      omega
    have hrec := ih text hlen hdrop
    have hmlen : ((c :: rs).take (hd :: tl).length).length = (hd :: tl).length := by
      simp only [List.length_take, List.length_cons] at hn ⊢
      omega
    simp only [scanAux, hm, if_true]
    rw [rebuild]
    simp only [Nat.sub_self, List.take_zero, List.nil_append, hmlen]
    rw [hrec]
  | case6 fuel c rs pos hm ih =>
    intro text hfuel htext
    have hdrop : text.drop (pos + 1) = rs := by
      have : (text.drop pos).drop 1 = text.drop (pos + 1) := by
        rw [List.drop_drop]
      rw [← this, htext]
      rfl
    have hrec := ih text (by simpa using Nat.le_of_succ_le_succ (by simpa using hfuel))
      hdrop
    simp only [scanAux, hm, if_false, Bool.false_eq_true]
    rw [rebuild_shift repl text pos c _ (by rw [htext, hdrop])
      (fun p hp => (scanAux_mem ci pat repl fuel rs (pos + 1) p hp).1)]
    rw [hrec]

/-! ### Lemmas about the pipeline -/

theorem replace_ok_elim {target repl text rw : List Char} {ci : Bool}
    {ms : List (Nat × List Char)}
    (h : replace target repl text ci = .ok (rw, ms)) :
    ∃ m, compileRegex (if ci then ciMarker ++ target else target) = .ok m ∧
      replaceAll m repl text = (rw, ms) := by
  simp only [replace] at h
  cases hc : compileRegex (if ci then ciMarker ++ target else target) with
  | error e => rw [hc] at h; exact absurd h (by simp)
  | ok m => rw [hc] at h; exact ⟨m, rfl, by simpa using h⟩

theorem countNl_append (a b : List Char) :
    countNl (a ++ b) = countNl a + countNl b := by
  induction a with
  | nil => simp [countNl]
  | cons c a ih => simp [countNl, ih]; omega

/-- Unfolding equation for `rustLines` at a character that is neither a
newline nor a carriage return preceding a newline. -/
theorem rustLines_cons (c : Char) (rest : List Char)
    (h2 : c = '\n' → False)
    (h1 : ∀ r' : List Char, c = '\r' → rest = '\n' :: r' → False) :
    rustLines (c :: rest) = match rustLines rest with
      | [] => [[c]]
      | l :: ls => (c :: l) :: ls := by
  rw [rustLines.eq_def]
  split
  · rename_i heq
    exact absurd heq (by simp)
  · rename_i r' heq
    injection heq with e1 e2
    exact absurd e1 (fun e => h1 r' e e2)
  · rename_i r2 heq2
    injection heq2 with e1 e2
    exact absurd e1 h2
  · rename_i c' r' hn1 hn2 heq
    injection heq with e1 e2
    subst e1; subst e2
    rfl

theorem rustLines_cons_nil (c : Char) (rest : List Char)
    (h2 : c = '\n' → False)
    (h1 : ∀ r' : List Char, c = '\r' → rest = '\n' :: r' → False)
    (hnil : rustLines rest = []) : rustLines (c :: rest) = [[c]] := by
  rw [rustLines_cons c rest h2 h1, hnil]

theorem rustLines_cons_cons (c : Char) (rest l0 : List Char) (ls0 : List (List Char))
    (h2 : c = '\n' → False)
    (h1 : ∀ r' : List Char, c = '\r' → rest = '\n' :: r' → False)
    (heq : rustLines rest = l0 :: ls0) : rustLines (c :: rest) = (c :: l0) :: ls0 := by
  rw [rustLines_cons c rest h2 h1, heq]

/-- No line produced by `rustLines` contains a newline. -/
theorem rustLines_no_nl : ∀ t : List Char, ∀ l ∈ rustLines t, countNl l = 0 := by
  intro t
  induction t using rustLines.induct with
  | case1 => simp [rustLines]
  | case2 rest ih =>
    intro l hl
    rw [rustLines] at hl
    rcases List.mem_cons.mp hl with h | h
    · simp [h, countNl]
    · exact ih l h
  | case3 rest ih =>
    intro l hl
    rw [rustLines] at hl
    rcases List.mem_cons.mp hl with h | h
    · simp [h, countNl]
    · exact ih l h
  | case4 c rest h1 h2 hnil ih =>
    intro l hl
    rw [rustLines_cons_nil c rest h2 h1 hnil] at hl
    simp only [List.mem_singleton] at hl
    rw [hl, countNl, countNl, if_neg h2]
  | case5 c rest h1 h2 l0 ls0 heq ih =>
    intro l hl
    rw [rustLines_cons_cons c rest l0 ls0 h2 h1 heq] at hl
    rcases List.mem_cons.mp hl with h | h
    · have hl0 : countNl l0 = 0 := ih l0 (by rw [heq]; exact List.mem_cons_self _ _)
      rw [h, countNl, if_neg h2, hl0]
    · exact ih l (by rw [heq]; exact List.mem_cons_of_mem _ h)

/-- `rustLines` returns no lines only for the empty text. -/
theorem rustLines_nil : ∀ t : List Char, rustLines t = [] → t = [] := by
  intro t
  induction t using rustLines.induct with
  | case1 => intro _; rfl
  | case2 rest ih => intro h; rw [rustLines] at h; exact absurd h (by simp)
  | case3 rest ih => intro h; rw [rustLines] at h; exact absurd h (by simp)
  | case4 c rest h1 h2 hnil ih =>
    intro h
    rw [rustLines_cons_nil c rest h2 h1 hnil] at h
    exact absurd h (by simp)
  | case5 c rest h1 h2 l0 ls0 heq ih =>
    intro h
    rw [rustLines_cons_cons c rest l0 ls0 h2 h1 heq] at h
    exact absurd h (by simp)

/-- Line counting is newline-delimited splitting in which trailing content
without a final newline still counts as one line: the number of lines is
the number of newline characters, plus one when the text is non-empty and
does not end with a newline. -/
theorem lineCount_eq_countNl : ∀ t : List Char,
    lineCount t = countNl t + (if t.getLast? = some '\n' ∨ t = [] then 0 else 1) := by
  intro t
  induction t using rustLines.induct with
  | case1 => simp [lineCount, rustLines, countNl]
  | case2 rest ih =>
    rw [lineCount, rustLines]
    cases rest with
    | nil => simp [rustLines, countNl]
    | cons r rest' =>
      rw [lineCount] at ih
      rw [List.length_cons]
      have hc : countNl ('\r' :: '\n' :: r :: rest') = countNl (r :: rest') + 1 := by
        simp [countNl]
        omega
      rw [hc, List.getLast?_cons_cons, List.getLast?_cons_cons]
      simp only [List.cons_ne_nil, or_false] at ih ⊢
      omega
  | case3 rest ih =>
    rw [lineCount, rustLines]
    cases rest with
    | nil => simp [rustLines, countNl]
    | cons r rest' =>
      rw [lineCount] at ih
      rw [List.length_cons]
      have hc : countNl ('\n' :: r :: rest') = countNl (r :: rest') + 1 := by
        simp [countNl]
        omega
      rw [hc, List.getLast?_cons_cons]
      simp only [List.cons_ne_nil, or_false] at ih ⊢
      omega
  | case4 c rest h1 h2 hnil ih =>
    have hrest : rest = [] := rustLines_nil rest hnil
    subst hrest
    rw [lineCount, rustLines_cons_nil c [] h2 h1 hnil]
    have hcn : ¬((some c : Option Char) = some '\n') := by
      simp only [Option.some_inj]
      exact h2
    rw [countNl, countNl, if_neg h2]
    simp [hcn]
  | case5 c rest h1 h2 l0 ls0 heq ih =>
    obtain ⟨r, rest', rfl⟩ : ∃ r rest', rest = r :: rest' := by
      cases rest with
      | nil => rw [rustLines] at heq; exact absurd heq (by simp)
      | cons r rest' => exact ⟨r, rest', rfl⟩
    rw [lineCount, rustLines_cons_cons c (r :: rest') l0 ls0 h2 h1 heq]
    rw [lineCount, heq] at ih
    simp only [List.length_cons] at ih ⊢
    have hcnl : countNl (c :: r :: rest') = countNl (r :: rest') := by
      rw [countNl, if_neg h2, Nat.zero_add]
    rw [hcnl, List.getLast?_cons_cons]
    have hP : ((r :: rest').getLast? = some '\n' ∨ c :: r :: rest' = []) ↔
        ((r :: rest').getLast? = some '\n' ∨ r :: rest' = []) := by simp
    rw [if_congr hP rfl rfl]
    simp only [List.cons_ne_nil, or_false] at ih ⊢
    omega

/-- Closed form of the interactive loop: per line, the accepted content (or
nothing) followed by one newline, all appended after the accumulator. -/
theorem interactiveLoop_eq (answers : Nat → List Char) :
    ∀ (ls : List (List Char)) (k : Nat) (acc : List Char),
      interactiveLoop answers ls k acc
        = acc ++ (List.map (fun p : Nat × List Char =>
            (if isYes (answers p.1) then p.2 else []) ++ ['\n'])
              (List.enumFrom k ls)).flatten := by
  intro ls
  induction ls with
  | nil => intro k acc; simp [interactiveLoop, List.enumFrom]
  | cons l ls ih =>
    intro k acc
    simp only [interactiveLoop]
    rw [ih]
    by_cases hy : isYes (answers k) <;>
      simp [hy, List.enumFrom, List.append_assoc]

/-- The interactive loop emits exactly one newline per processed line. -/
theorem countNl_interactiveLoop (answers : Nat → List Char) :
    ∀ (ls : List (List Char)) (k : Nat) (acc : List Char),
      (∀ l ∈ ls, countNl l = 0) →
      countNl (interactiveLoop answers ls k acc) = countNl acc + ls.length := by
  intro ls
  induction ls with
  | nil => intro k acc _; simp [interactiveLoop]
  | cons l ls ih =>
    intro k acc h
    simp only [interactiveLoop]
    rw [ih _ _ (fun x hx => h x (List.mem_cons_of_mem _ hx))]
    have hl : countNl l = 0 := h l (List.mem_cons_self _ _)
    by_cases hy : isYes (answers k) <;>
      simp [hy, countNl_append, countNl, hl] <;> omega

/-- Compilation succeeds exactly on syntactically valid patterns of the
modelled fragment. -/
theorem compileRegex_isOk_eq (p : List Char) :
    (compileRegex p).isOk = patternValid p := by
  by_cases hc : p.take 4 = ciMarker
  · cases hall : (p.drop 4).all fun c => !(isMeta c) <;>
      simp only [compileRegex, patternValid, hc, if_true, hall, Bool.false_eq_true,
        if_false, Except.isOk] <;> rfl
  · cases hall : p.all fun c => !(isMeta c) <;>
      simp only [compileRegex, patternValid, hc, if_true, hall, Bool.false_eq_true,
        if_false, Except.isOk] <;> rfl

/-! ### The claims -/

/-- Claim C1: whenever `replace` returns Ok, every recorded match record
`(offset, matched_text)` satisfies offset fidelity — the slice of the
original input text starting at `offset` of length `matched_text.length`
equals `matched_text` — and the records are in strictly increasing offset
order. -/
theorem claim_C1_offset_fidelity (target repl text rw : List Char) (ci : Bool)
    (ms : List (Nat × List Char))
    (hok : replace target repl text ci = .ok (rw, ms)) :
    (∀ p ∈ ms, (text.drop p.1).take p.2.length = p.2) ∧
      List.Chain' (fun a b : Nat × List Char => a.1 < b.1) ms := by
  obtain ⟨m, hc, hall⟩ := replace_ok_elim hok
  have hms : (scanAux m.ci m.lit repl text.length text 0).2 = ms := by
    rw [show scanAux m.ci m.lit repl text.length text 0 = replaceAll m repl text from rfl,
      hall]
  constructor
  · intro p hp
    rw [← hms] at hp
    have h := (scanAux_mem m.ci m.lit repl text.length text 0 p hp).2
    simpa using h
  · rw [← hms]
    exact scanAux_sorted m.ci m.lit repl text.length text 0

/-- Witness for C1 at the spec's case-insensitive scenario. -/
theorem claim_C1_offset_fidelity_witness :
    replace "abc".toList "X".toList "ABC abc".toList true
        = .ok ("X X".toList, [(0, "ABC".toList), (4, "abc".toList)]) ∧
    ((∀ p ∈ [(0, "ABC".toList), (4, "abc".toList)],
        ("ABC abc".toList.drop p.1).take p.2.length = p.2) ∧
      List.Chain' (fun a b : Nat × List Char => a.1 < b.1)
        [(0, "ABC".toList), (4, "abc".toList)]) :=
  ⟨by decide, claim_C1_offset_fidelity "abc".toList "X".toList "ABC abc".toList
    "X X".toList true [(0, "ABC".toList), (4, "abc".toList)] (by decide)⟩

/-- Claim C2, as stated, is false in its first half: the final text of
interactive mode does not in general contain the same number of newline
characters as the rewritten text.  Rewritten text `"a"` has no newline, yet
interactive review of its single line yields a final text with one newline
whatever the answer. -/
theorem claim_C2_counterexample :
    replace ['b'] ['c'] ['a'] false = .ok (['a'], []) ∧
    (mainModel ⟨['b'], ['c'], false, true, false, false⟩ ['a']
      (fun _ => ['n'])).outputWrite = some ['\n'] ∧
    countNl ['\n'] = 1 ∧ countNl ['a'] = 0 := by decide

/-- Claim C2 amended: in interactive mode, for rewritten text with N lines
the final text has exactly N newline characters, regardless of the
acceptance decisions (this equals the rewritten text's newline count only
when the rewritten text is empty or ends with a newline). -/
theorem claim_C2_amended_line_structure (args : Arguments) (data : List Char)
    (answers : Nat → List Char) (rw : List Char) (ms : List (Nat × List Char))
    (hint : args.interactive = true) (hprev : args.preview = false)
    (hok : replace args.target args.replacement data args.case_insensitive
      = .ok (rw, ms)) :
    ∃ final, (mainModel args data answers).outputWrite = some final ∧
      countNl final = (rustLines rw).length := by
  refine ⟨interactiveData answers (rustLines rw), ?_, ?_⟩
  · simp [mainModel, hok, hprev, hint]
  · have h := countNl_interactiveLoop answers (rustLines rw) 0 []
      (rustLines_no_nl rw)
    simpa [interactiveData, countNl] using h

/-- Witness for the amended C2: two lines, both rejected, yield two
newlines. -/
theorem claim_C2_amended_witness :
    (⟨['b'], ['c'], false, true, false, false⟩ : Arguments).interactive = true ∧
    (⟨['b'], ['c'], false, true, false, false⟩ : Arguments).preview = false ∧
    replace ['b'] ['c'] "a\nd".toList false = .ok ("a\nd".toList, []) ∧
    (∃ final, (mainModel ⟨['b'], ['c'], false, true, false, false⟩ "a\nd".toList
        (fun _ => ['n'])).outputWrite = some final ∧
      countNl final = (rustLines "a\nd".toList).length) :=
  ⟨rfl, rfl, by decide,
    claim_C2_amended_line_structure ⟨['b'], ['c'], false, true, false, false⟩
      "a\nd".toList (fun _ => ['n']) "a\nd".toList [] rfl rfl (by decide)⟩

/-- Claim C3: in interactive mode the rewritten text is split into lines
(delimiters discarded); line k contributes its content followed by a
newline when answer k is accepted, and only a newline otherwise.  The
acceptance test is a case-insensitive (trimmed) comparison with "y";
empty input is a rejection. -/
theorem claim_C3_interactive_per_line (args : Arguments) (data : List Char)
    (answers : Nat → List Char) (rw : List Char) (ms : List (Nat × List Char))
    (hint : args.interactive = true) (hprev : args.preview = false)
    (hok : replace args.target args.replacement data args.case_insensitive
      = .ok (rw, ms)) :
    (mainModel args data answers).outputWrite
      = some ((List.map (fun p : Nat × List Char =>
          (if isYes (answers p.1) then p.2 else []) ++ ['\n'])
            (List.enumFrom 0 (rustLines rw))).flatten) ∧
    isYes " Y ".toList = true ∧ isYes ['y'] = true ∧ isYes ['Y'] = true ∧
    isYes [] = false ∧ isYes "yes".toList = false ∧ isYes "n".toList = false := by
  refine ⟨?_, by decide, by decide, by decide, by decide, by decide, by decide⟩
  simp only [mainModel, hok, hprev, hint, Bool.false_eq_true, if_false, if_true,
    interactiveData, interactiveLoop_eq answers (rustLines rw) 0 []]
  simp

/-- Witness for C3: one accepted and one rejected line. -/
theorem claim_C3_interactive_per_line_witness :
    (⟨['o'], ['0'], false, true, false, false⟩ : Arguments).interactive = true ∧
    (⟨['o'], ['0'], false, true, false, false⟩ : Arguments).preview = false ∧
    replace ['o'] ['0'] "on\noff".toList false
      = .ok ("0n\n0ff".toList, [(0, ['o']), (3, ['o'])]) ∧
    ((mainModel ⟨['o'], ['0'], false, true, false, false⟩ "on\noff".toList
        (fun k => if k = 0 then ['y'] else ['n'])).outputWrite
      = some ((List.map (fun p : Nat × List Char =>
          (if isYes ((fun k => if k = 0 then ['y'] else ['n']) p.1) then p.2 else [])
            ++ ['\n'])
            (List.enumFrom 0 (rustLines "0n\n0ff".toList))).flatten) ∧
      isYes " Y ".toList = true ∧ isYes ['y'] = true ∧ isYes ['Y'] = true ∧
      isYes [] = false ∧ isYes "yes".toList = false ∧ isYes "n".toList = false) :=
  ⟨rfl, rfl, by decide,
    claim_C3_interactive_per_line ⟨['o'], ['0'], false, true, false, false⟩
      "on\noff".toList (fun k => if k = 0 then ['y'] else ['n'])
      "0n\n0ff".toList [(0, ['o']), (3, ['o'])] rfl rfl (by decide)⟩

/-- Claim C4: the rewritten text is exactly the interleaving of unmatched
slices of the original text with the verbatim replacement string — the
replacement is an opaque literal (no back-reference or capture-group
expansion), and case-insensitive matching does not alter its casing.  The
two concrete conjuncts exhibit a replacement containing a dollar-digit
back-reference inserted literally, and an unchanged mixed-case replacement
under case-insensitive matching. -/
theorem claim_C4_literal_replacement (target repl text rw : List Char) (ci : Bool)
    (ms : List (Nat × List Char))
    (hok : replace target repl text ci = .ok (rw, ms)) :
    rw = rebuild repl text 0 ms ∧
    replace ['a'] "$1".toList "za".toList false
      = .ok ("z$1".toList, [(1, ['a'])]) ∧
    replace "abc".toList "Xy".toList "ABC".toList true
      = .ok ("Xy".toList, [(0, "ABC".toList)]) := by
  refine ⟨?_, by decide, by decide⟩
  obtain ⟨m, hc, hall⟩ := replace_ok_elim hok
  have h1 : (scanAux m.ci m.lit repl text.length text 0).1 = rw := by
    rw [show scanAux m.ci m.lit repl text.length text 0 = replaceAll m repl text from rfl,
      hall]
  have h2 : (scanAux m.ci m.lit repl text.length text 0).2 = ms := by
    rw [show scanAux m.ci m.lit repl text.length text 0 = replaceAll m repl text from rfl,
      hall]
  rw [← h1, ← h2]
  exact scanAux_rebuild m.ci m.lit repl text.length text 0 text (le_refl _) rfl

/-- Witness for C4 at the case-insensitive scenario. -/
theorem claim_C4_literal_replacement_witness :
    replace "abc".toList "X".toList "ABC abc".toList true
        = .ok ("X X".toList, [(0, "ABC".toList), (4, "abc".toList)]) ∧
    ("X X".toList
        = rebuild "X".toList "ABC abc".toList 0 [(0, "ABC".toList), (4, "abc".toList)] ∧
      replace ['a'] "$1".toList "za".toList false
        = .ok ("z$1".toList, [(1, ['a'])]) ∧
      replace "abc".toList "Xy".toList "ABC".toList true
        = .ok ("Xy".toList, [(0, "ABC".toList)])) :=
  ⟨by decide, claim_C4_literal_replacement "abc".toList "X".toList "ABC abc".toList
    "X X".toList true [(0, "ABC".toList), (4, "abc".toList)] (by decide)⟩

/-- Claim C5: with pattern "abc", text "ABC abc" and replacement "X",
case-insensitive matching rewrites to "X X" with two match records while
case-sensitive matching rewrites to "ABC X" with one. -/
theorem claim_C5_case_insensitivity_flag :
    replace "abc".toList "X".toList "ABC abc".toList true
        = .ok ("X X".toList, [(0, "ABC".toList), (4, "abc".toList)]) ∧
    replace "abc".toList "X".toList "ABC abc".toList false
        = .ok ("ABC X".toList, [(4, "abc".toList)]) := by decide

/-- Claim C6: in preview mode the program shows the first 10 lines of the
rewritten text joined by newlines together with the match count, exits
successfully, writes neither the output file nor any log file, issues no
interactive prompt, and prints no statistics. -/
theorem claim_C6_preview_non_persistence (args : Arguments) (data : List Char)
    (answers : Nat → List Char) (rw : List Char) (ms : List (Nat × List Char))
    (hprev : args.preview = true)
    (hok : replace args.target args.replacement data args.case_insensitive
      = .ok (rw, ms)) :
    mainModel args data answers =
      { exitCode := 0, outputWrite := none, logWrite := none,
        previewShown := some (joinNl ((rustLines rw).take 10), ms.length),
        prompts := [], statsShown := none } := by
  simp [mainModel, hok, hprev]

/-- Witness for C6: preview of a two-match run, with a log file requested
yet not written. -/
theorem claim_C6_preview_non_persistence_witness :
    (⟨['o'], ['0'], false, false, true, true⟩ : Arguments).preview = true ∧
    replace ['o'] ['0'] "foo bar".toList false
      = .ok ("f00 bar".toList, [(1, ['o']), (2, ['o'])]) ∧
    mainModel ⟨['o'], ['0'], false, false, true, true⟩ "foo bar".toList (fun _ => []) =
      { exitCode := 0, outputWrite := none, logWrite := none,
        previewShown := some (joinNl ((rustLines "f00 bar".toList).take 10), 2),
        prompts := [], statsShown := none } :=
  ⟨rfl, by decide,
    claim_C6_preview_non_persistence ⟨['o'], ['0'], false, false, true, true⟩
      "foo bar".toList (fun _ => []) "f00 bar".toList [(1, ['o']), (2, ['o'])]
      rfl (by decide)⟩

/-- Claim C7: when a log file is requested (and preview is off), the
written log is exactly the substitution's matches rendered in order as
"Position: ..., Matched: ..." lines joined by newlines, independent of the
interactive answers; concretely, pattern "o" on "foo bar" with replacement
"0" logs positions 1 and 2. -/
theorem claim_C7_log_serialization (args : Arguments) (data : List Char)
    (answers : Nat → List Char) (rw : List Char) (ms : List (Nat × List Char))
    (hlog : args.log_file = true) (hprev : args.preview = false)
    (hok : replace args.target args.replacement data args.case_insensitive
      = .ok (rw, ms)) :
    (mainModel args data answers).logWrite = some (renderLog ms) ∧
    (∀ answers2, (mainModel args data answers2).logWrite = some (renderLog ms)) ∧
    replace ['o'] ['0'] "foo bar".toList false
      = .ok ("f00 bar".toList, [(1, ['o']), (2, ['o'])]) ∧
    renderLog [(1, ['o']), (2, ['o'])]
      = "Position: 1, Matched: o\nPosition: 2, Matched: o".toList := by
  refine ⟨?_, fun answers2 => ?_, by decide, by decide⟩ <;>
    simp [mainModel, hok, hprev, hlog]

/-- Witness for C7: interactive run rejecting every line still logs both
matches. -/
theorem claim_C7_log_serialization_witness :
    (⟨['o'], ['0'], false, true, false, true⟩ : Arguments).log_file = true ∧
    (⟨['o'], ['0'], false, true, false, true⟩ : Arguments).preview = false ∧
    replace ['o'] ['0'] "foo bar".toList false
      = .ok ("f00 bar".toList, [(1, ['o']), (2, ['o'])]) ∧
    ((mainModel ⟨['o'], ['0'], false, true, false, true⟩ "foo bar".toList
        (fun _ => ['n'])).logWrite = some (renderLog [(1, ['o']), (2, ['o'])]) ∧
      (∀ answers2, (mainModel ⟨['o'], ['0'], false, true, false, true⟩
          "foo bar".toList answers2).logWrite
        = some (renderLog [(1, ['o']), (2, ['o'])])) ∧
      replace ['o'] ['0'] "foo bar".toList false
        = .ok ("f00 bar".toList, [(1, ['o']), (2, ['o'])]) ∧
      renderLog [(1, ['o']), (2, ['o'])]
        = "Position: 1, Matched: o\nPosition: 2, Matched: o".toList) :=
  ⟨rfl, rfl, by decide,
    claim_C7_log_serialization ⟨['o'], ['0'], false, true, false, true⟩
      "foo bar".toList (fun _ => ['n']) "f00 bar".toList [(1, ['o']), (2, ['o'])]
      rfl rfl (by decide)⟩

/-- Claim C8: `replace` fails exactly when the (effective) pattern is not
syntactically valid in the modelled pattern language; the error is decided
by the pattern alone — before any scanning, independent of the text and
replacement, with no partial result — and whenever the pattern compiles
the call succeeds with the pure scan result. -/
theorem claim_C8_pattern_error_contract (target repl text : List Char) (ci : Bool) :
    ((∃ e, replace target repl text ci = .error e) ↔
      patternValid (if ci then ciMarker ++ target else target) = false) ∧
    (∀ e, replace target repl text ci = .error e →
      ∀ repl2 text2, replace target repl2 text2 ci = .error e) ∧
    (∀ m, compileRegex (if ci then ciMarker ++ target else target) = .ok m →
      replace target repl text ci = .ok (replaceAll m repl text)) := by
  have hrepl : ∀ r2 t2 : List Char, replace target r2 t2 ci
      = match compileRegex (if ci then ciMarker ++ target else target) with
        | .error e => .error e
        | .ok m => .ok (replaceAll m r2 t2) := fun _ _ => rfl
  cases hc : compileRegex (if ci then ciMarker ++ target else target) with
  | error e =>
    have hv : patternValid (if ci then ciMarker ++ target else target) = false := by
      rw [← compileRegex_isOk_eq, hc]
      rfl
    refine ⟨⟨fun _ => hv, fun _ => ⟨e, ?_⟩⟩, ?_, ?_⟩
    · rw [hrepl, hc]
    · intro e2 he2 repl2 text2
      rw [hrepl, hc] at he2
      rw [hrepl, hc]
    · intro m hm
      exact absurd hm (fun h => Except.noConfusion h)
  | ok m =>
    have hv : patternValid (if ci then ciMarker ++ target else target) = true := by
      rw [← compileRegex_isOk_eq, hc]
      rfl
    refine ⟨⟨?_, ?_⟩, ?_, ?_⟩
    · rintro ⟨e, he⟩
      rw [hrepl, hc] at he
      exact absurd he (fun h => Except.noConfusion h)
    · intro hfalse
      rw [hv] at hfalse
      exact absurd hfalse (fun h => Bool.noConfusion h)
    · intro e he
      rw [hrepl, hc] at he
      exact absurd he (fun h => Except.noConfusion h)
    · intro m2 hm2
      injection hm2 with h
      subst h
      rw [hrepl, hc]

/-- Witness for C8 at an invalid pattern (unbalanced group). -/
theorem claim_C8_pattern_error_contract_witness :
    ((∃ e, replace ['('] ['r'] ['x'] false = .error e) ↔
      patternValid (if false then ciMarker ++ ['('] else ['(']) = false) ∧
    (∀ e, replace ['('] ['r'] ['x'] false = .error e →
      ∀ repl2 text2, replace ['('] repl2 text2 false = .error e) ∧
    (∀ m, compileRegex (if false then ciMarker ++ ['('] else ['(']) = .ok m →
      replace ['('] ['r'] ['x'] false = .ok (replaceAll m ['r'] ['x'])) :=
  claim_C8_pattern_error_contract ['('] ['r'] ['x'] false

/-- Claim C9: in direct mode on "a b\nc d e\n", replacing "b" with "x"
writes "a x\nc d e\n" and reports 2 lines and 5 words for both original and
final text; line counting is newline-delimited with trailing content short
of a final newline still counted, and word counting splits the text into
maximal whitespace-free runs. -/
theorem claim_C9_statistics :
    ((mainModel ⟨['b'], ['x'], false, false, false, false⟩ "a b\nc d e\n".toList
        (fun _ => [])).outputWrite = some "a x\nc d e\n".toList ∧
      (mainModel ⟨['b'], ['x'], false, false, false, false⟩ "a b\nc d e\n".toList
        (fun _ => [])).statsShown = some ((2, 5), (2, 5))) ∧
    (∀ t : List Char,
      lineCount t = countNl t + (if t.getLast? = some '\n' ∨ t = [] then 0 else 1)) ∧
    splitWs "a b\nc d e\n".toList = [['a'], ['b'], ['c'], ['d'], ['e']] :=
  ⟨by decide, lineCount_eq_countNl, by decide⟩

/-- Claim C10: when both the preview and the interactive flags are set the
run is indistinguishable from the same run with the interactive flag
cleared — preview takes precedence: no prompt is issued, no output file
and no log file is written, whatever the answer stream. -/
theorem claim_C10_preview_precedence (args : Arguments) (data : List Char)
    (answers answers2 : Nat → List Char)
    (hprev : args.preview = true) (_hint : args.interactive = true) :
    mainModel args data answers
        = mainModel { args with interactive := false } data answers2 ∧
    (mainModel args data answers).prompts = [] ∧
    (mainModel args data answers).outputWrite = none ∧
    (mainModel args data answers).logWrite = none := by
  cases hok : replace args.target args.replacement data args.case_insensitive with
  | error e => simp [mainModel, hok]
  | ok v =>
    obtain ⟨rw, ms⟩ := v
    simp [mainModel, hok, hprev]

/-- Witness for C10. -/
theorem claim_C10_preview_precedence_witness :
    (⟨['o'], ['0'], false, true, true, true⟩ : Arguments).preview = true ∧
    (⟨['o'], ['0'], false, true, true, true⟩ : Arguments).interactive = true ∧
    (mainModel ⟨['o'], ['0'], false, true, true, true⟩ "foo".toList (fun _ => ['y'])
        = mainModel ⟨['o'], ['0'], false, false, true, true⟩ "foo".toList
            (fun _ => ['n']) ∧
      (mainModel ⟨['o'], ['0'], false, true, true, true⟩ "foo".toList
        (fun _ => ['y'])).prompts = [] ∧
      (mainModel ⟨['o'], ['0'], false, true, true, true⟩ "foo".toList
        (fun _ => ['y'])).outputWrite = none ∧
      (mainModel ⟨['o'], ['0'], false, true, true, true⟩ "foo".toList
        (fun _ => ['y'])).logWrite = none) :=
  ⟨rfl, rfl, claim_C10_preview_precedence ⟨['o'], ['0'], false, true, true, true⟩
    "foo".toList (fun _ => ['y']) (fun _ => ['n']) rfl rfl⟩

end QuickReplace
